import Mathlib

/-!
Verification of the chronos time-tracking system.

The server-side entry store is embedded from the SQL schema
(`time_entries` table: `chk_end_after_start` check constraint and the
partial unique index `idx_time_entries_user_running`) and from the
`calculate_duration` trigger migration.  Timestamps are modelled as
integer seconds since the epoch; durations as integer seconds.

The client-side layer (hooks `use-timer.ts`, `use-time-entries.ts` and
the API helper `lib/api/time-entries.ts`) is embedded as pure state
transition functions over the fetch results.
-/

namespace Chronos

/-- A committed row of the `time_entries` table (src/unnamed/part_013).
`end_time = none` means the timer is currently running. -/
structure StoredEntry where
  id : Nat
  user_id : Nat
  description : Option String
  project_id : Option Nat
  task_id : Option Nat
  start_time : Int
  end_time : Option Int
  duration : Option Int
  deriving Repr, DecidableEq

/-- An insert draft: the column values supplied by an INSERT statement.
A `duration` value may be supplied but the trigger overwrites it. -/
structure EntryDraft where
  user_id : Nat
  description : Option String
  project_id : Option Nat
  task_id : Option Nat
  start_time : Int
  end_time : Option Int
  duration : Option Int
  deriving Repr, DecidableEq

/-- An update patch: each `some` field is assigned by the UPDATE.
`end_time`/`duration` can be set to a value or to NULL. -/
structure EntryPatch where
  description : Option (Option String) := none
  project_id : Option (Option Nat) := none
  task_id : Option (Option Nat) := none
  start_time : Option Int := none
  end_time : Option (Option Int) := none
  duration : Option (Option Int) := none
  deriving Repr, DecidableEq

/-- Errors surfaced by the store: `conflict` is the violation of the
partial unique index (one running entry per user), `checkViolation` the
violation of `chk_end_after_start`. -/
inductive StoreError where
  | conflict
  | checkViolation
  | notFound
  | invalidState
  deriving Repr, DecidableEq

/-- The `calculate_duration` trigger body
(src/migrations/20251103000004): duration is the difference of the time
bounds in whole seconds when `end_time` is set, otherwise NULL.
(`start_time` is a NOT NULL column, so only `end_time` is tested.) -/
def calcDuration (start : Int) (endT : Option Int) : Option Int :=
  match endT with
  | some e => some (e - start)
  | none => none

/-- The `chk_end_after_start` constraint:
`end_time IS NULL OR end_time > start_time`. -/
def chkEndAfterStart (start : Int) (endT : Option Int) : Bool :=
  match endT with
  | some e => start < e
  | none => true

/-- Is this row a running entry of user `u`? (the predicate of the
partial unique index `idx_time_entries_user_running`). -/
def isRunningFor (u : Nat) (e : StoredEntry) : Bool :=
  e.user_id == u && e.end_time.isNone

/-- Number of running entries of user `u` in the table. -/
def runningCount (db : List StoredEntry) (u : Nat) : Nat :=
  db.countP (isRunningFor u)

/-- Does the table already hold a running entry of user `u`? -/
def hasRunning (db : List StoredEntry) (u : Nat) : Bool :=
  db.any (isRunningFor u)

/-- Build the committed row for an insert: the trigger recomputes
`duration` from the time bounds, ignoring any supplied value. -/
def mkStored (id : Nat) (d : EntryDraft) : StoredEntry :=
  { id := id
    user_id := d.user_id
    description := d.description
    project_id := d.project_id
    task_id := d.task_id
    start_time := d.start_time
    end_time := d.end_time
    duration := calcDuration d.start_time d.end_time }

/-- Apply an update patch to a row (column assignments only; the
trigger recomputation is applied afterwards by `updateEntry`). -/
def applyPatch (e : StoredEntry) (p : EntryPatch) : StoredEntry :=
  { e with
    description := p.description.getD e.description
    project_id := p.project_id.getD e.project_id
    task_id := p.task_id.getD e.task_id
    start_time := p.start_time.getD e.start_time
    end_time := p.end_time.getD e.end_time
    duration := p.duration.getD e.duration }

/-- Replace the (first) row with the given primary key. -/
def replaceById (db : List StoredEntry) (id : Nat) (m : StoredEntry) :
    List StoredEntry :=
  match db with
  | [] => []
  | x :: xs => if x.id = id then m :: xs else x :: replaceById xs id m

/-- Remove the (first) row with the given primary key. -/
def deleteById (db : List StoredEntry) (id : Nat) : List StoredEntry :=
  match db with
  | [] => []
  | x :: xs => if x.id = id then xs else x :: deleteById xs id

/-- Find the row with the given primary key owned by user `u`. -/
def findById (db : List StoredEntry) (id : Nat) (u : Nat) :
    Option StoredEntry :=
  db.find? (fun e => e.id == id && e.user_id == u)

/-- An atomic INSERT into `time_entries`: the trigger computes
`duration`, the check constraint validates the time bounds, and the
partial unique index rejects a second running entry of the same user in
the same atomic statement. -/
def insertEntry (db : List StoredEntry) (nextId : Nat) (d : EntryDraft) :
    Except StoreError (List StoredEntry) :=
  if ¬ chkEndAfterStart d.start_time d.end_time then
    .error .checkViolation
  else if d.end_time = none ∧ hasRunning db d.user_id then
    .error .conflict
  else
    .ok (db ++ [mkStored nextId d])

/-- The merged row of an update: the patch is applied and then the
trigger recomputes `duration` from the merged time bounds. -/
def mergeRow (e : StoredEntry) (p : EntryPatch) : StoredEntry :=
  { applyPatch e p with
    duration := calcDuration (applyPatch e p).start_time
      (applyPatch e p).end_time }

/-- An atomic UPDATE of one row: merge the patch, recompute `duration`
(trigger), re-validate the check constraint against the merged row, and
enforce the partial unique index against the other rows. -/
def updateEntry (db : List StoredEntry) (id : Nat) (u : Nat)
    (p : EntryPatch) : Except StoreError (List StoredEntry) :=
  match findById db id u with
  | none => .error .notFound
  | some e =>
    if ¬ chkEndAfterStart (mergeRow e p).start_time (mergeRow e p).end_time then
      .error .checkViolation
    else if (mergeRow e p).end_time = none ∧
        (db.countP (fun x => isRunningFor u x && !(x.id == id))) ≠ 0 then
      .error .conflict
    else
      .ok (replaceById db id (mergeRow e p))

/-- The stopped version of a running row: `end_time := now` and the
trigger-recomputed duration. -/
def stopRow (e : StoredEntry) (now : Int) : StoredEntry :=
  { e with end_time := some now
           duration := calcDuration e.start_time (some now) }

/-- The stop operation: fails when the entry is absent for this owner,
fails with `invalidState` when it is already stopped, otherwise sets
`end_time := now` and recomputes `duration`. -/
def stopEntry (db : List StoredEntry) (id : Nat) (u : Nat) (now : Int) :
    Except StoreError (List StoredEntry) :=
  match findById db id u with
  | none => .error .notFound
  | some e =>
    match e.end_time with
    | some _ => .error .invalidState
    | none =>
      if ¬ chkEndAfterStart (stopRow e now).start_time
          (stopRow e now).end_time then
        .error .checkViolation
      else
        .ok (replaceById db id (stopRow e now))

/-- The delete operation: removes the row when present for this owner. -/
def deleteEntry (db : List StoredEntry) (id : Nat) (u : Nat) :
    Except StoreError (List StoredEntry) :=
  match findById db id u with
  | none => .error .notFound
  | some _ => .ok (deleteById db id)

/-- The operations that write to the entry store. -/
inductive Op where
  | ins (d : EntryDraft)
  | upd (id u : Nat) (p : EntryPatch)
  | stp (id u : Nat) (now : Int)
  | del (id u : Nat)

/-- Store state: the table plus the id allocator. -/
structure StoreState where
  db : List StoredEntry
  nextId : Nat

/-- Apply one write operation atomically; a failed statement leaves the
state unchanged (transaction rollback), a successful insert consumes a
fresh id. -/
def applyOp (s : StoreState) : Op → Except StoreError StoreState
  | .ins d =>
    (insertEntry s.db s.nextId d).map (fun db' => ⟨db', s.nextId + 1⟩)
  | .upd id u p =>
    (updateEntry s.db id u p).map (fun db' => ⟨db', s.nextId⟩)
  | .stp id u now =>
    (stopEntry s.db id u now).map (fun db' => ⟨db', s.nextId⟩)
  | .del id u =>
    (deleteEntry s.db id u).map (fun db' => ⟨db', s.nextId⟩)

/-- States of the entry store reachable from the empty table by
(successful) write operations. -/
inductive Reachable : StoreState → Prop
  | init : Reachable ⟨[], 0⟩
  | step {s s' : StoreState} {op : Op} :
      Reachable s → applyOp s op = .ok s' → Reachable s'

/-- The store invariants: fresh-id bound, distinct primary keys, the
partial unique index (at most one running entry per user), the check
constraint on every row, and trigger-derived durations. -/
def WF (s : StoreState) : Prop :=
  (∀ e ∈ s.db, e.id < s.nextId) ∧
  s.db.Pairwise (fun a b => a.id ≠ b.id) ∧
  (∀ u, runningCount s.db u ≤ 1) ∧
  (∀ e ∈ s.db, chkEndAfterStart e.start_time e.end_time = true) ∧
  (∀ e ∈ s.db, e.duration = calcDuration e.start_time e.end_time)

/-! ### Basic facts about the store embedding -/

theorem isRunningFor_false_of_some {v : Nat} {m : StoredEntry} {t : Int}
    (h : m.end_time = some t) : isRunningFor v m = false := by
  simp [isRunningFor, h]

theorem isRunningFor_false_of_ne {v : Nat} {m : StoredEntry}
    (h : m.user_id ≠ v) : isRunningFor v m = false := by
  simp [isRunningFor, h]

theorem isRunningFor_true {m : StoredEntry} (hu : m.user_id = u)
    (he : m.end_time = none) : isRunningFor u m = true := by
  simp [isRunningFor, hu, he]

theorem runningCount_eq_zero_iff {db : List StoredEntry} {u : Nat} :
    runningCount db u = 0 ↔ hasRunning db u = false := by
  simp [runningCount, hasRunning, List.countP_eq_zero, List.any_eq_false]

theorem findById_spec {db : List StoredEntry} {id u : Nat} {e : StoredEntry}
    (h : findById db id u = some e) : e ∈ db ∧ e.id = id ∧ e.user_id = u := by
  refine ⟨List.mem_of_find?_eq_some h, ?_⟩
  have := List.find?_some h
  simpa using this

theorem replaceById_eq_append {l₁ l₂ : List StoredEntry}
    {e m : StoredEntry} {id : Nat} (he : e.id = id)
    (h₁ : ∀ x ∈ l₁, x.id ≠ id) :
    replaceById (l₁ ++ e :: l₂) id m = l₁ ++ m :: l₂ := by
  induction l₁ with
  | nil => simp [replaceById, he]
  | cons a l ih =>
    have ha : a.id ≠ id := h₁ a (by simp)
    simp only [List.cons_append, replaceById, if_neg ha, List.append_eq]
    rw [ih (fun x hx => h₁ x (by simp [hx]))]

theorem deleteById_sublist (db : List StoredEntry) (id : Nat) :
    List.Sublist (deleteById db id) db := by
  induction db with
  | nil => simp [deleteById]
  | cons a l ih =>
    simp only [deleteById]
    split
    · exact List.sublist_cons_of_sublist a (List.Sublist.refl l)
    · exact List.Sublist.cons₂ a ih

/-- In a table with pairwise-distinct primary keys, a found row splits
the table into a prefix and suffix free of its key. -/
theorem found_decomp {db : List StoredEntry}
    (hpw : db.Pairwise (fun a b => a.id ≠ b.id)) {id u : Nat}
    {e : StoredEntry} (h : findById db id u = some e) :
    ∃ l₁ l₂, db = l₁ ++ e :: l₂ ∧ (∀ x ∈ l₁, x.id ≠ id) ∧
      (∀ x ∈ l₂, x.id ≠ id) := by
  obtain ⟨hmem, hid, -⟩ := findById_spec h
  obtain ⟨l₁, l₂, rfl⟩ := List.append_of_mem hmem
  refine ⟨l₁, l₂, rfl, ?_, ?_⟩
  · intro x hx
    have hne := (List.pairwise_append.mp hpw).2.2 x hx e (by simp)
    omega
  · intro x hx
    have hp₂ := (List.pairwise_append.mp hpw).2.1
    have hne := (List.pairwise_cons.mp hp₂).1 x hx
    omega

/-! ### Preservation of the store invariants -/

theorem wf_insert {s : StoreState} {d : EntryDraft}
    {db' : List StoredEntry} (hwf : WF s)
    (h : insertEntry s.db s.nextId d = .ok db') :
    WF ⟨db', s.nextId + 1⟩ := by
  obtain ⟨hid, hpw, hrun, hchk, hdur⟩ := hwf
  unfold insertEntry at h
  split at h
  · exact absurd h (by simp)
  next hc =>
    split at h
    next hg => exact absurd h (by simp)
    next hg =>
      injection h with h
      subst h
      have hcchk : chkEndAfterStart d.start_time d.end_time = true := by
        simpa using hc
      refine ⟨?_, ?_, ?_, ?_, ?_⟩
      · intro e he
        rcases List.mem_append.mp he with h1 | h1
        · exact Nat.lt_succ_of_lt (hid e h1)
        · simp only [List.mem_singleton] at h1
          subst h1
          exact Nat.lt_succ_self _
      · rw [List.pairwise_append]
        refine ⟨hpw, by simp, ?_⟩
        intro a ha b hb
        simp only [List.mem_singleton] at hb
        subst hb
        have := hid a ha
        simp only [mkStored]
        omega
      · intro v
        simp only [runningCount, List.countP_append, List.countP_cons,
          List.countP_nil] at *
        rcases hend : d.end_time with _ | t
        · -- running insert: the unique-index guard ensured no other
          -- running entry of this user
          by_cases hv : d.user_id = v
          · have h0 : hasRunning s.db d.user_id = false := by
              by_cases hr : hasRunning s.db d.user_id
              · exact absurd ⟨hend, hr⟩ hg
              · simpa using hr
            have hz : runningCount s.db d.user_id = 0 :=
              runningCount_eq_zero_iff.mpr h0
            have : isRunningFor v (mkStored s.nextId d) = true :=
              isRunningFor_true (by simp [mkStored, hv]) (by simp [mkStored, hend])
            simp only [runningCount] at hz
            rw [← hv] at *
            simp [this, hz]
          · have : isRunningFor v (mkStored s.nextId d) = false :=
              isRunningFor_false_of_ne (by simp [mkStored, hv])
            simpa [this] using hrun v
        · have : isRunningFor v (mkStored s.nextId d) = false :=
            isRunningFor_false_of_some (m := mkStored s.nextId d) (t := t)
              (by simp [mkStored, hend])
          simpa [this] using hrun v
      · intro e he
        rcases List.mem_append.mp he with h1 | h1
        · exact hchk e h1
        · simp only [List.mem_singleton] at h1
          subst h1
          simpa [mkStored] using hcchk
      · intro e he
        rcases List.mem_append.mp he with h1 | h1
        · exact hdur e h1
        · simp only [List.mem_singleton] at h1
          subst h1
          simp [mkStored]

/-- Replacing a found row by a merged row that satisfies the check
constraint, carries a trigger-derived duration, keeps key and owner, and
honours the partial unique index, preserves the store invariants. -/
theorem wf_replace {s : StoreState} {id u : Nat} {e m : StoredEntry}
    (hwf : WF s) (hfind : findById s.db id u = some e)
    (hmid : m.id = e.id) (hmuser : m.user_id = e.user_id)
    (hmchk : chkEndAfterStart m.start_time m.end_time = true)
    (hmdur : m.duration = calcDuration m.start_time m.end_time)
    (hconf : m.end_time = none →
      s.db.countP (fun x => isRunningFor u x && !(x.id == id)) = 0) :
    WF ⟨replaceById s.db id m, s.nextId⟩ := by
  obtain ⟨hid, hpw, hrun, hchk, hdur⟩ := hwf
  obtain ⟨hmem, heid, heuser⟩ := findById_spec hfind
  obtain ⟨l₁, l₂, hdb, h₁, h₂⟩ := found_decomp hpw hfind
  have hrepl : replaceById s.db id m = l₁ ++ m :: l₂ := by
    rw [hdb]; exact replaceById_eq_append heid h₁
  have hmem' : ∀ x, x ∈ l₁ ++ m :: l₂ → x ∈ s.db ∨ x = m := by
    intro x hx
    rcases List.mem_append.mp hx with hx | hx
    · exact Or.inl (hdb ▸ List.mem_append_left _ hx)
    · rcases List.mem_cons.mp hx with hx | hx
      · exact Or.inr hx
      · exact Or.inl (hdb ▸ List.mem_append_right _ (List.mem_cons_of_mem _ hx))
  rw [hrepl]
  have hpw' : (l₁ ++ e :: l₂).Pairwise (fun a b => a.id ≠ b.id) := hdb ▸ hpw
  obtain ⟨pl₁, pec, hcross⟩ := List.pairwise_append.mp hpw'
  obtain ⟨he₂, pl₂⟩ := List.pairwise_cons.mp pec
  refine ⟨?_, ?_, ?_, ?_, ?_⟩
  · intro x hx
    rcases hmem' x hx with hx | hx
    · exact hid x hx
    · subst hx
      exact hmid ▸ heid ▸ (heid ▸ hid e hmem)
  · refine List.pairwise_append.mpr ⟨pl₁, ?_, ?_⟩
    · refine List.pairwise_cons.mpr ⟨?_, pl₂⟩
      intro b hb
      exact hmid ▸ he₂ b hb
    · intro a ha b hb
      rcases List.mem_cons.mp hb with hb | hb
      · subst hb
        exact fun hc => hcross a ha e (by simp) (hc.trans hmid)
      · exact hcross a ha b (List.mem_cons_of_mem _ hb)
  · intro v
    have horig := hrun v
    rw [hdb] at horig
    simp only [runningCount, List.countP_append, List.countP_cons] at horig ⊢
    rcases hm : m.end_time with _ | t
    · -- the merged row is running: no other running row of this owner
      have hz := hconf hm
      rw [hdb] at hz
      have hq₁ : l₁.countP (fun x => isRunningFor u x && !(x.id == id)) =
          l₁.countP (isRunningFor u) := by
        refine List.countP_congr ?_
        intro x hx
        have : (x.id == id) = false := by
          simpa using h₁ x hx
        simp [this]
      have hq₂ : l₂.countP (fun x => isRunningFor u x && !(x.id == id)) =
          l₂.countP (isRunningFor u) := by
        refine List.countP_congr ?_
        intro x hx
        have : (x.id == id) = false := by
          simpa using h₂ x hx
        simp [this]
      simp only [List.countP_append, List.countP_cons, hq₁, hq₂] at hz
      by_cases hv : v = u
      · subst hv
        have hmr : isRunningFor v m = true :=
          isRunningFor_true (hmuser.trans heuser) hm
        simp [hmr]
        omega
      · have hmr : isRunningFor v m = false :=
          isRunningFor_false_of_ne (by rw [hmuser, heuser]; exact fun hc => hv hc.symm)
        simp [hmr]
        omega
    · have hmr : isRunningFor v m = false :=
        isRunningFor_false_of_some (t := t) hm
      simp [hmr]
      omega
  · intro x hx
    rcases hmem' x hx with hx | hx
    · exact hchk x hx
    · subst hx; exact hmchk
  · intro x hx
    rcases hmem' x hx with hx | hx
    · exact hdur x hx
    · subst hx; exact hmdur

theorem wf_update {s : StoreState} {id u : Nat} {p : EntryPatch}
    {db' : List StoredEntry} (hwf : WF s)
    (h : updateEntry s.db id u p = .ok db') : WF ⟨db', s.nextId⟩ := by
  unfold updateEntry at h
  split at h
  · exact absurd h (by simp)
  next e hfind =>
    split at h
    next hc => exact absurd h (by simp)
    next hc =>
      split at h
      next hg => exact absurd h (by simp)
      next hg =>
        injection h with h
        subst h
        refine wf_replace hwf hfind rfl rfl (by simpa using hc) rfl ?_
        intro hme
        by_contra hb
        exact hg ⟨hme, hb⟩

theorem wf_stop {s : StoreState} {id u : Nat} {now : Int}
    {db' : List StoredEntry} (hwf : WF s)
    (h : stopEntry s.db id u now = .ok db') : WF ⟨db', s.nextId⟩ := by
  unfold stopEntry at h
  split at h
  · exact absurd h (by simp)
  next e hfind =>
    split at h
    · exact absurd h (by simp)
    next he =>
      split at h
      next hc => exact absurd h (by simp)
      next hc =>
        injection h with h
        subst h
        refine wf_replace hwf hfind rfl rfl (by simpa using hc) rfl ?_
        intro hme
        simp [stopRow] at hme

theorem wf_delete {s : StoreState} {id u : Nat}
    {db' : List StoredEntry} (hwf : WF s)
    (h : deleteEntry s.db id u = .ok db') : WF ⟨db', s.nextId⟩ := by
  unfold deleteEntry at h
  split at h
  · exact absurd h (by simp)
  next e hfind =>
    injection h with h
    subst h
    obtain ⟨hid, hpw, hrun, hchk, hdur⟩ := hwf
    have hsub := deleteById_sublist s.db id
    refine ⟨fun x hx => hid x (hsub.mem hx), hpw.sublist hsub, ?_,
      fun x hx => hchk x (hsub.mem hx), fun x hx => hdur x (hsub.mem hx)⟩
    intro v
    exact le_trans (hsub.countP_le _) (hrun v)

/-- Every successful store operation preserves the invariants. -/
theorem wf_applyOp {s s' : StoreState} {op : Op} (hwf : WF s)
    (h : applyOp s op = .ok s') : WF s' := by
  cases op with
  | ins d =>
    simp only [applyOp] at h
    rcases hi : insertEntry s.db s.nextId d with err | db' <;> rw [hi] at h
    · exact absurd h (by simp [Except.map])
    · simp only [Except.map] at h
      injection h with h
      subst h
      exact wf_insert hwf hi
  | upd id u p =>
    simp only [applyOp] at h
    rcases hi : updateEntry s.db id u p with err | db' <;> rw [hi] at h
    · exact absurd h (by simp [Except.map])
    · simp only [Except.map] at h
      injection h with h
      subst h
      exact wf_update hwf hi
  | stp id u now =>
    simp only [applyOp] at h
    rcases hi : stopEntry s.db id u now with err | db' <;> rw [hi] at h
    · exact absurd h (by simp [Except.map])
    · simp only [Except.map] at h
      injection h with h
      subst h
      exact wf_stop hwf hi
  | del id u =>
    simp only [applyOp] at h
    rcases hi : deleteEntry s.db id u with err | db' <;> rw [hi] at h
    · exact absurd h (by simp [Except.map])
    · simp only [Except.map] at h
      injection h with h
      subst h
      exact wf_delete hwf hi

/-- Every reachable state of the entry store satisfies the invariants. -/
theorem reachable_wf {s : StoreState} (h : Reachable s) : WF s := by
  induction h with
  | init =>
    refine ⟨by simp, by simp, ?_, by simp, by simp⟩
    intro u
    simp [runningCount]
  | step _ hop ih => exact wf_applyOp ih hop

/-! ### Racing start operations -/

theorem insertEntry_running_ok {db : List StoredEntry} {nid : Nat}
    {d : EntryDraft} (hd : d.end_time = none)
    (hr : hasRunning db d.user_id = false) :
    insertEntry db nid d = .ok (db ++ [mkStored nid d]) := by
  simp [insertEntry, hd, chkEndAfterStart, hr]

theorem insertEntry_running_conflict {db : List StoredEntry} {nid : Nat}
    {d : EntryDraft} (hd : d.end_time = none)
    (hr : hasRunning db d.user_id = true) :
    insertEntry db nid d = .error .conflict := by
  simp [insertEntry, hd, chkEndAfterStart, hr]

theorem applyOp_start_ok {s : StoreState} {d : EntryDraft}
    (hd : d.end_time = none) (hr : hasRunning s.db d.user_id = false) :
    applyOp s (.ins d) =
      .ok ⟨s.db ++ [mkStored s.nextId d], s.nextId + 1⟩ := by
  simp [applyOp, insertEntry_running_ok hd hr, Except.map]

theorem applyOp_start_conflict {s : StoreState} {d : EntryDraft}
    (hd : d.end_time = none) (hr : hasRunning s.db d.user_id = true) :
    applyOp s (.ins d) = .error .conflict := by
  simp [applyOp, insertEntry_running_conflict hd hr, Except.map]

theorem hasRunning_append_running {db : List StoredEntry} {u nid : Nat}
    {d : EntryDraft} (hu : d.user_id = u) (hd : d.end_time = none) :
    hasRunning (db ++ [mkStored nid d]) u = true := by
  have : isRunningFor u (mkStored nid d) = true :=
    isRunningFor_true (by simp [mkStored, hu]) (by simp [mkStored, hd])
  simp [hasRunning, List.any_append, this]

/-- Sequentially apply a batch of racing INSERTs (the serialization the
unique index imposes on concurrent `start` calls); returns the final
state, the number of successful inserts, and the number of inserts
rejected with `ConflictError`. -/
def runStarts (s : StoreState) (ds : List EntryDraft) :
    StoreState × Nat × Nat :=
  match ds with
  | [] => (s, 0, 0)
  | d :: rest =>
    match applyOp s (.ins d) with
    | .ok s' =>
      let r := runStarts s' rest
      (r.1, r.2.1 + 1, r.2.2)
    | .error .conflict =>
      let r := runStarts s rest
      (r.1, r.2.1, r.2.2 + 1)
    | .error _ =>
      let r := runStarts s rest
      (r.1, r.2.1, r.2.2)

theorem runStarts_all_conflict {s : StoreState} {u : Nat}
    {ds : List EntryDraft}
    (hds : ∀ d ∈ ds, d.user_id = u ∧ d.end_time = none)
    (hr : hasRunning s.db u = true) :
    runStarts s ds = (s, 0, ds.length) := by
  induction ds with
  | nil => simp [runStarts]
  | cons d rest ih =>
    obtain ⟨hu, hd⟩ := hds d (by simp)
    have hc : applyOp s (.ins d) = .error .conflict :=
      applyOp_start_conflict hd (by rw [hu]; exact hr)
    simp [runStarts, hc, ih (fun x hx => hds x (List.mem_cons_of_mem _ hx))]

theorem runStarts_race {s : StoreState} {u : Nat} {ds : List EntryDraft}
    (hr : hasRunning s.db u = false)
    (hds : ∀ d ∈ ds, d.user_id = u ∧ d.end_time = none) (hne : ds ≠ []) :
    (runStarts s ds).2.1 = 1 ∧ (runStarts s ds).2.2 = ds.length - 1 := by
  cases ds with
  | nil => exact absurd rfl hne
  | cons d rest =>
    obtain ⟨hu, hd⟩ := hds d (by simp)
    have hok : applyOp s (.ins d) =
        .ok ⟨s.db ++ [mkStored s.nextId d], s.nextId + 1⟩ :=
      applyOp_start_ok hd (by rw [hu]; exact hr)
    have hr₁ : hasRunning (s.db ++ [mkStored s.nextId d]) u = true :=
      hasRunning_append_running hu hd
    have hrest := runStarts_all_conflict
      (fun x hx => hds x (List.mem_cons_of_mem _ hx)) (s := ⟨_, s.nextId + 1⟩) hr₁
    simp [runStarts, hok, hrest]

/-- Claim C1: in every reachable state of the entry store, each owner
has at most one running entry (`end_time = null`); and when several
`start` inserts for one owner race against a state where the owner has
no running entry, exactly one insert succeeds and every other is
rejected with a conflict error by the store itself. -/
theorem claim_running_uniqueness :
    (∀ s : StoreState, Reachable s → ∀ u : Nat, runningCount s.db u ≤ 1) ∧
    (∀ (s : StoreState) (u : Nat) (ds : List EntryDraft), Reachable s →
      runningCount s.db u = 0 → ds ≠ [] →
      (∀ d ∈ ds, d.user_id = u ∧ d.end_time = none) →
      (runStarts s ds).2.1 = 1 ∧
        (runStarts s ds).2.2 = ds.length - 1) := by
  constructor
  · intro s hs u
    exact (reachable_wf hs).2.2.1 u
  · intro s u ds _ hz hne hds
    exact runStarts_race (runningCount_eq_zero_iff.mp hz) hds hne

/-- A concrete start draft used to witness the racing-start theorem. -/
def startDraftA : EntryDraft :=
  { user_id := 7
    description := some "A"
    project_id := none
    task_id := none
    start_time := 100
    end_time := none
    duration := none }

/-- Witness for claim C1: two racing starts of user 7 on the empty
store resolve into one success and one conflict. -/
theorem claim_running_uniqueness_witness :
    (runStarts ⟨[], 0⟩ [startDraftA, startDraftA]).2.1 = 1 ∧
      (runStarts ⟨[], 0⟩ [startDraftA, startDraftA]).2.2 = 1 := by
  refine claim_running_uniqueness.2 ⟨[], 0⟩ 7 [startDraftA, startDraftA]
    Reachable.init rfl (by simp) ?_
  intro d hd
  simp only [List.mem_cons, List.not_mem_nil, or_false] at hd
  rcases hd with rfl | rfl <;> exact ⟨rfl, rfl⟩

/-! ### Causality (I2) and duration derivation (I3) -/

/-- The body validation of the POST `/api/time-entries` route
(frontend `app/api/time-entries/route.ts`): when the body carries both
time bounds, `end_time <= start_time` is answered with HTTP 400; the
result is the rejection status, `none` meaning the request is forwarded. -/
def postValidate (start_time end_time : Option Int) : Option Nat :=
  match start_time, end_time with
  | some s, some e => if e ≤ s then some 400 else none
  | _, _ => none

theorem insertEntry_check_reject {db : List StoredEntry} {nid : Nat}
    {d : EntryDraft} {t : Int} (he : d.end_time = some t)
    (hle : t ≤ d.start_time) :
    insertEntry db nid d = .error .checkViolation := by
  have : chkEndAfterStart d.start_time d.end_time = false := by
    simp [chkEndAfterStart, he]
    omega
  simp [insertEntry, this]

theorem updateEntry_check_reject {db : List StoredEntry} {id u : Nat}
    {p : EntryPatch} {e : StoredEntry} {t : Int}
    (hfind : findById db id u = some e)
    (he : (mergeRow e p).end_time = some t)
    (hle : t ≤ (mergeRow e p).start_time) :
    updateEntry db id u p = .error .checkViolation := by
  have : chkEndAfterStart (mergeRow e p).start_time
      (mergeRow e p).end_time = false := by
    simp [chkEndAfterStart, he]
    omega
  simp [updateEntry, hfind, this]

/-- Claim C2: every insert or update whose merged row has a non-null
`end_time` with `end_time <= start_time` (equality included) is
rejected — by the route-level validation with HTTP 400, and by the
`chk_end_after_start` constraint at the store — and consequently every
committed row with non-null `end_time` satisfies
`end_time > start_time` strictly. -/
theorem claim_causality :
    (∀ s : StoreState, Reachable s → ∀ e ∈ s.db, ∀ t : Int,
      e.end_time = some t → e.start_time < t) ∧
    (∀ (db : List StoredEntry) (nid : Nat) (d : EntryDraft) (t : Int),
      d.end_time = some t → t ≤ d.start_time →
      insertEntry db nid d = .error .checkViolation) ∧
    (∀ (db : List StoredEntry) (id u : Nat) (p : EntryPatch)
      (e : StoredEntry) (t : Int), findById db id u = some e →
      (mergeRow e p).end_time = some t →
      t ≤ (mergeRow e p).start_time →
      updateEntry db id u p = .error .checkViolation) ∧
    (∀ st et : Int, et ≤ st → postValidate (some st) (some et) = some 400) := by
  refine ⟨?_, ?_, ?_, ?_⟩
  · intro s hs e he t ht
    have := (reachable_wf hs).2.2.2.1 e he
    rw [ht] at this
    simpa [chkEndAfterStart] using this
  · intro db nid d t he hle
    exact insertEntry_check_reject he hle
  · intro db id u p e t hfind he hle
    exact updateEntry_check_reject hfind he hle
  · intro st et hle
    simp [postValidate, hle]

/-- A draft whose `end_time` equals its `start_time` (violates I2). -/
def equalTimesDraft : EntryDraft :=
  { user_id := 3
    description := none
    project_id := none
    task_id := none
    start_time := 50
    end_time := some 50
    duration := none }

/-- Witness for claim C2: equal timestamps are rejected both at the
store (insert) and at the route validation (HTTP 400). -/
theorem claim_causality_witness :
    insertEntry [] 0 equalTimesDraft = .error .checkViolation ∧
      postValidate (some 50) (some 50) = some 400 :=
  ⟨claim_causality.2.1 [] 0 equalTimesDraft 50 rfl (by decide),
   claim_causality.2.2.2 50 50 (by decide)⟩

/-- Claim C3: in every reachable state, every row's `duration` is the
trigger-derived value — `end_time − start_time` in whole seconds when
`end_time` is non-null (e.g. exactly 3661 when the bounds differ by
3661 seconds), `null` when `end_time` is null — and a `duration`
supplied with an insert draft or an update patch never influences the
committed row. -/
theorem claim_duration_derivation :
    (∀ s : StoreState, Reachable s → ∀ e ∈ s.db,
      (∀ t : Int, e.end_time = some t →
        e.duration = some (t - e.start_time)) ∧
      (e.end_time = none → e.duration = none)) ∧
    (∀ start : Int, calcDuration start (some (start + 3661)) = some 3661) ∧
    (∀ (db : List StoredEntry) (nid : Nat) (d : EntryDraft)
      (v₁ v₂ : Option Int),
      insertEntry db nid { d with duration := v₁ } =
        insertEntry db nid { d with duration := v₂ }) ∧
    (∀ (db : List StoredEntry) (id u : Nat) (p : EntryPatch)
      (v₁ v₂ : Option (Option Int)),
      updateEntry db id u { p with duration := v₁ } =
        updateEntry db id u { p with duration := v₂ }) := by
  refine ⟨?_, ?_, ?_, ?_⟩
  · intro s hs e he
    have hd := (reachable_wf hs).2.2.2.2 e he
    constructor
    · intro t ht
      rw [ht] at hd
      simpa [calcDuration] using hd
    · intro ht
      rw [ht] at hd
      simpa [calcDuration] using hd
  · intro start
    simp [calcDuration]
  · intro db nid d v₁ v₂
    rfl
  · intro db id u p v₁ v₂
    rfl

/-- A completed draft spanning exactly 3661 seconds. -/
def spanDraft : EntryDraft :=
  { user_id := 2
    description := some "span"
    project_id := none
    task_id := none
    start_time := 100
    end_time := some 3761
    duration := none }

/-- The store state holding just the committed `spanDraft` row. -/
def spanState : StoreState := ⟨[mkStored 0 spanDraft], 1⟩

theorem spanState_reachable : Reachable spanState :=
  Reachable.step Reachable.init
    (show applyOp ⟨[], 0⟩ (.ins spanDraft) = .ok spanState from rfl)

/-- Witness for claim C3: the committed 3661-second row carries
`duration = 3661`. -/
theorem claim_duration_derivation_witness :
    (mkStored 0 spanDraft).duration = some 3661 :=
  (claim_duration_derivation.1 spanState spanState_reachable
    (mkStored 0 spanDraft) (by simp [spanState])).1 3761 rfl

/-! ### The client statistics layer

`getTimeStats` (frontend `lib/api/time-entries.ts`) computes window
boundaries with JavaScript `Date` arithmetic and issues three list
queries.  Timestamps are modelled as integer milliseconds since the
epoch in the server's reference timezone. -/

/-- Milliseconds per civil day. -/
def msPerDay : Int := 86400000

/-- The civil day index of a timestamp (floor division; `Int./` is
Euclidean division, which is floor division for a positive divisor). -/
def dayIndex (t : Int) : Int := t / msPerDay

/-- Midnight of the timestamp's date (`setHours(0,0,0,0)`). -/
def dayStartMs (t : Int) : Int := msPerDay * dayIndex t

/-- JavaScript `getDay()`: 0 = Sunday … 6 = Saturday; epoch day 0
(1970-01-01) was a Thursday. -/
def jsDow (t : Int) : Int := (dayIndex t + 4) % 7

/-- Civil date (year, month 1..12, day 1..31) of a day index, the
embedding of the proleptic-Gregorian date JavaScript `getFullYear` /
`getMonth` / `getDate` report. -/
def civilFromDays (z : Int) : Int × Int × Int :=
  let zs := z + 719468
  let era := zs / 146097
  let doe := zs - era * 146097
  let yoe := (doe - doe / 1460 + doe / 36524 - doe / 146096) / 365
  let y := yoe + era * 400
  let doy := doe - (365 * yoe + yoe / 4 - yoe / 100)
  let mp := (5 * doy + 2) / 153
  let d := doy - (153 * mp + 2) / 5 + 1
  let m := if mp < 10 then mp + 3 else mp - 9
  (if m ≤ 2 then y + 1 else y, m, d)

/-- Day index of a civil date, the embedding of JavaScript
`new Date(year, monthIndex, day)` (at midnight). -/
def daysFromCivil (y m d : Int) : Int :=
  let ya := if m ≤ 2 then y - 1 else y
  let era := ya / 400
  let yoe := ya - era * 400
  let mp := if m > 2 then m - 3 else m + 9
  let doy := (153 * mp + 2) / 5 + d - 1
  let doe := yoe * 365 + yoe / 4 - yoe / 100 + doy
  era * 146097 + doe - 719468

/-- `getFullYear()` of a timestamp. -/
def civilYear (t : Int) : Int := (civilFromDays (dayIndex t)).1

/-- `getMonth() + 1` of a timestamp (civil month 1..12). -/
def civilMonth (t : Int) : Int := (civilFromDays (dayIndex t)).2.1

/-- `todayStart` of `getTimeStats`: midnight of now's date. -/
def todayStartMs (now : Int) : Int := dayStartMs now

/-- `todayEnd` of `getTimeStats`: `setHours(23,59,59,999)`. -/
def todayEndMs (now : Int) : Int := dayStartMs now + (msPerDay - 1)

/-- `weekStart` of `getTimeStats`: `setDate(getDate() - day + (day === 0
? -6 : 1))` then midnight — move back to the most recent Monday. -/
def weekStartMs (now : Int) : Int :=
  dayStartMs now - msPerDay * (if jsDow now = 0 then 6 else jsDow now - 1)

/-- `weekEnd` of `getTimeStats`: `weekStart + 6 days` at
`23:59:59.999`. -/
def weekEndMs (now : Int) : Int :=
  weekStartMs now + 6 * msPerDay + (msPerDay - 1)

/-- `monthStart` of `getTimeStats`:
`new Date(getFullYear(), getMonth(), 1)` — the 1st of now's month at
midnight. -/
def monthStartMs (now : Int) : Int :=
  msPerDay * daysFromCivil (civilYear now) (civilMonth now) 1

/-- Midnight of the 1st of the month after now's month (JavaScript
`new Date(year, monthIndex + 1, …)` rolls December over to January). -/
def nextMonthFirstMs (now : Int) : Int :=
  if civilMonth now = 12 then
    msPerDay * daysFromCivil (civilYear now + 1) 1 1
  else
    msPerDay * daysFromCivil (civilYear now) (civilMonth now + 1) 1

/-- `monthEnd` of `getTimeStats`: `new Date(getFullYear(), getMonth() +
1, 0)` (day 0 rolls back to the last day of now's month) at
`23:59:59.999` — the last millisecond before the 1st of the next
month. -/
def monthEndMs (now : Int) : Int := nextMonthFirstMs now - 1

/-- Calendar embedding sanity: epoch day 0 is 1970-01-01. -/
theorem civilFromDays_epoch : civilFromDays 0 = (1970, 1, 1) := by decide

/-- Calendar embedding sanity: 2026-10-11 is epoch day 20737 and
decodes back, 2024-02-29 (leap day) is epoch day 19782 and decodes
back, and 1969-12-31 is epoch day -1. -/
theorem civilFromDays_examples :
    daysFromCivil 1970 1 1 = 0 ∧
      daysFromCivil 2026 10 11 = 20737 ∧
      civilFromDays 20737 = (2026, 10, 11) ∧
      daysFromCivil 2024 2 29 = 19782 ∧
      civilFromDays 19782 = (2024, 2, 29) ∧
      daysFromCivil 1969 12 31 = -1 ∧
      civilFromDays (-1) = (1969, 12, 31) ∧
      daysFromCivil 2025 1 1 = 20089 ∧
      daysFromCivil 2024 12 1 = 20058 := by decide

/-- Errors surfaced by the client API helpers. -/
inductive ApiError where
  | conflict
  | http (status : Nat)
  | network
  deriving Repr, DecidableEq

/-- A time entry as returned by the list API (`start_time` in epoch
milliseconds, `duration` in seconds). -/
structure ApiEntry where
  id : Nat
  start_time : Int
  end_time : Option Int
  duration : Int
  deriving Repr, DecidableEq

/-- The `TimeEntriesListResponse` shape. -/
structure ListResponse where
  entries : List ApiEntry
  total_count : Nat
  total_duration : Int
  page : Nat
  per_page : Nat
  deriving Repr, DecidableEq

/-- Entries whose `start_time` lies in the inclusive
`start_date..end_date` range. -/
def windowFilter (db : List ApiEntry) (startD endD : Int) :
    List ApiEntry :=
  db.filter (fun e =>
    decide (startD ≤ e.start_time) && decide (e.start_time ≤ endD))

/-- Insert an entry into a list sorted by `start_time` descending. -/
def insertDesc (e : ApiEntry) (l : List ApiEntry) : List ApiEntry :=
  match l with
  | [] => [e]
  | x :: xs =>
    if x.start_time ≤ e.start_time then e :: x :: xs
    else x :: insertDesc e xs

/-- Sort by `start_time` descending (the default listing order). -/
def sortDesc (l : List ApiEntry) : List ApiEntry :=
  l.foldr insertDesc []

/-- Items-per-page bound: `limit` is clamped to [1, 100]. -/
def clampLimit (n : Nat) : Nat := min (max n 1) 100

/-- Modelled from the spec: the backend Listing/Filter Engine behind
`GET /api/time-entries` (its Rust source is not in the repository;
spec §4.4 and the API documentation describe it).  The date filter
keeps entries whose `start_time` lies in the inclusive range; the page
is a slice of the filtered, sorted set of at most `limit` (clamped to
[1,100]) entries, while `total_count` and `total_duration` are computed
over the full filtered set. -/
def listQuery (db : List ApiEntry) (startD endD : Int) (limit : Nat) :
    ListResponse :=
  let f := windowFilter db startD endD
  { entries := (sortDesc f).take (clampLimit limit)
    total_count := f.length
    total_duration := (f.map (fun e => e.duration)).sum
    page := 1
    per_page := clampLimit limit }

/-- The six statistics returned by `getTimeStats`. -/
structure TimeStats where
  today : Int
  this_week : Int
  this_month : Int
  total_entries_today : Nat
  total_entries_week : Nat
  total_entries_month : Nat
  deriving Repr, DecidableEq

/-- Assembly of the `getTimeStats` result from the three window
queries (frontend `lib/api/time-entries.ts`): durations come from
`total_duration`, entry counts from `entries.length`, and any failed
query degrades the whole result to zeroed statistics (the
`catch` branch). -/
def getTimeStats (todayData weekData monthData :
    Except ApiError ListResponse) : TimeStats :=
  match todayData, weekData, monthData with
  | .ok t, .ok w, .ok m =>
    { today := t.total_duration
      this_week := w.total_duration
      this_month := m.total_duration
      total_entries_today := t.entries.length
      total_entries_week := w.entries.length
      total_entries_month := m.entries.length }
  | _, _, _ =>
    { today := 0, this_week := 0, this_month := 0
      total_entries_today := 0, total_entries_week := 0
      total_entries_month := 0 }

/-- `getTimeStats` against a healthy backend: the three window queries
(each issued with `limit: 100`) succeed over the current entry set. -/
def getTimeStatsFromDb (now : Int) (db : List ApiEntry) : TimeStats :=
  getTimeStats
    (.ok (listQuery db (todayStartMs now) (todayEndMs now) 100))
    (.ok (listQuery db (weekStartMs now) (weekEndMs now) 100))
    (.ok (listQuery db (monthStartMs now) (monthEndMs now) 100))

theorem length_insertDesc (e : ApiEntry) (l : List ApiEntry) :
    (insertDesc e l).length = l.length + 1 := by
  induction l with
  | nil => rfl
  | cons x xs ih =>
    simp only [insertDesc]
    split
    · simp
    · simp [ih]

theorem length_sortDesc (l : List ApiEntry) :
    (sortDesc l).length = l.length := by
  induction l with
  | nil => rfl
  | cons x xs ih =>
    simp only [sortDesc, List.foldr_cons] at *
    rw [length_insertDesc, ih]
    simp

/-- A set of 101 entries all starting at the epoch instant (inside
every window of `now = 0`). -/
def bigDb : List ApiEntry :=
  (List.range 101).map (fun i =>
    { id := i, start_time := 0, end_time := some 1000, duration := 1 })

/-- Counterexample to claim C4 as stated: with 101 entries in the
day window, the reported count is the page-capped 100 while the
cardinality of the full window set is 101. -/
theorem claim_stats_counts_counterexample :
    (getTimeStatsFromDb 0 bigDb).total_entries_today = 100 ∧
      (windowFilter bigDb (todayStartMs 0) (todayEndMs 0)).length = 101 :=
  ⟨rfl, rfl⟩

/-- Claim C4 (amended): for each statistics window the reported entry
count is the length of the first result page of the window query issued
with `limit: 100` — `min 100 (cardinality of the window set)` — so it
equals the full cardinality only when the window holds at most 100
entries. -/
theorem claim_stats_counts_amended :
    ∀ (now : Int) (db : List ApiEntry),
      (getTimeStatsFromDb now db).total_entries_today =
        min 100 (windowFilter db (todayStartMs now) (todayEndMs now)).length ∧
      (getTimeStatsFromDb now db).total_entries_week =
        min 100 (windowFilter db (weekStartMs now) (weekEndMs now)).length ∧
      (getTimeStatsFromDb now db).total_entries_month =
        min 100 (windowFilter db (monthStartMs now) (monthEndMs now)).length := by
  intro now db
  refine ⟨?_, ?_, ?_⟩ <;>
    · simp only [getTimeStatsFromDb, getTimeStats, listQuery]
      rw [List.length_take, length_sortDesc]
      norm_num [clampLimit]

/-- Claim C5: if any of the three underlying window queries fails, the
stats computation returns all six statistics as zero instead of
propagating the error. -/
theorem claim_stats_zero_on_failure :
    ∀ td wd md : Except ApiError ListResponse,
      ((∃ e, td = .error e) ∨ (∃ e, wd = .error e) ∨
        (∃ e, md = .error e)) →
      getTimeStats td wd md =
        { today := 0, this_week := 0, this_month := 0
          total_entries_today := 0, total_entries_week := 0
          total_entries_month := 0 } := by
  intro td wd md h
  cases td with
  | error e => rfl
  | ok t =>
    cases wd with
    | error e => rfl
    | ok w =>
      cases md with
      | error e => rfl
      | ok m =>
        exfalso
        rcases h with ⟨e, he⟩ | ⟨e, he⟩ | ⟨e, he⟩ <;> simp at he

/-- An arbitrary healthy list response used in the C5 witness. -/
def okResp : ListResponse :=
  { entries := [], total_count := 0, total_duration := 0
    page := 1, per_page := 20 }

/-- Witness for claim C5: one failing window query zeroes everything. -/
theorem claim_stats_zero_on_failure_witness :
    getTimeStats (.error .network) (.ok okResp) (.ok okResp) =
      { today := 0, this_week := 0, this_month := 0
        total_entries_today := 0, total_entries_week := 0
        total_entries_month := 0 } :=
  claim_stats_zero_on_failure (.error .network) (.ok okResp) (.ok okResp)
    (Or.inl ⟨.network, rfl⟩)

/-- Claim C6: the windows used by the stats computation are, at the
millisecond granularity of the timestamps: day = [midnight of now's
date, next midnight); week = [most recent Monday 00:00, following
Monday 00:00) — also when now is a Sunday, where the start is the
preceding Monday — and month = [1st of now's month 00:00, 1st of next
month 00:00). -/
theorem claim_window_boundaries :
    ∀ now : Int,
      (todayStartMs now ≤ now ∧ now < todayStartMs now + msPerDay) ∧
      (∀ t : Int, (todayStartMs now ≤ t ∧ t ≤ todayEndMs now) ↔
        (todayStartMs now ≤ t ∧ t < todayStartMs now + msPerDay)) ∧
      (jsDow (weekStartMs now) = 1 ∧ weekStartMs now ≤ now ∧
        now < weekStartMs now + 7 * msPerDay) ∧
      (∀ t : Int, (weekStartMs now ≤ t ∧ t ≤ weekEndMs now) ↔
        (weekStartMs now ≤ t ∧ t < weekStartMs now + 7 * msPerDay)) ∧
      (jsDow now = 0 → weekStartMs now = todayStartMs now - 6 * msPerDay) ∧
      (∀ t : Int, (monthStartMs now ≤ t ∧ t ≤ monthEndMs now) ↔
        (monthStartMs now ≤ t ∧ t < nextMonthFirstMs now)) := by
  intro now
  refine ⟨?_, ?_, ?_, ?_, ?_, ?_⟩
  · simp only [todayStartMs, dayStartMs, dayIndex, msPerDay]
    omega
  · intro t
    simp only [todayStartMs, todayEndMs, dayStartMs, dayIndex, msPerDay]
    omega
  · by_cases h : jsDow now = 0 <;>
      · simp only [jsDow, weekStartMs, dayStartMs, dayIndex, msPerDay] at h ⊢
        simp only [h, if_pos, if_neg, if_true, if_false]
        omega
  · intro t
    simp only [weekStartMs, weekEndMs, dayStartMs, dayIndex, msPerDay]
    omega
  · intro h
    simp only [weekStartMs, todayStartMs, h, if_pos]
    ring
  · intro t
    simp only [monthEndMs]
    omega

/-- Witness for claim C6: 1970-01-04 was a Sunday, and the week window
start computed for a Sunday instant is the preceding Monday's
midnight. -/
theorem claim_window_boundaries_witness :
    weekStartMs 259200000 = todayStartMs 259200000 - 6 * msPerDay :=
  ((claim_window_boundaries 259200000).2.2.2.2).1 (by decide)

/-! ### The client timer hook (`use-timer.ts`) -/

/-- A time entry as the timer hook sees it (`start_time` is the wire
string; its parse result is passed alongside where needed). -/
structure TimerEntry where
  id : Nat
  start_time : String
  end_time : Option String
  deriving Repr, DecidableEq

/-- `calculateElapsedTime` (use-timer.ts): empty `start_time` and
unparsable timestamps (`parsed = none` models a NaN `Date`) yield 0;
otherwise the floored second difference `now − start`, clamped to be
non-negative.  `parsed` is the result of `new Date(startTime).getTime()`
in epoch milliseconds. -/
def calculateElapsedTime (startTime : String) (parsed : Option Int)
    (nowMs : Int) : Int :=
  if startTime = "" then 0
  else
    match parsed with
    | none => 0
    | some startMs => max 0 ((nowMs - startMs) / 1000)

/-- The timer hook state. -/
structure TimerState where
  isRunning : Bool
  currentEntry : Option TimerEntry
  elapsedTime : Int
  loading : Bool
  error : Option String
  deriving Repr, DecidableEq

/-- One tick of the 1-second interval started by `startTimerUpdate`:
`elapsedTime` is recomputed from the entry's `start_time`, never
incremented. -/
def tickUpdate (entry_start : String) (parsed : Option Int)
    (nowMs : Int) (prev : TimerState) : TimerState :=
  { prev with elapsedTime := calculateElapsedTime entry_start parsed nowMs }

/-- `handleVisibilityChange`: with a running timer, hiding the page
only suspends the interval (no state change); becoming visible again
immediately recomputes `elapsedTime` from the authoritative
`start_time`. -/
def handleVisibilityChange (hidden : Bool) (parsed : Option Int)
    (nowMs : Int) (st : TimerState) : TimerState :=
  match st.isRunning, st.currentEntry with
  | true, some e =>
    if hidden then st
    else tickUpdate e.start_time parsed nowMs st
  | _, _ => st

/-- The message shown for a failed start (the hook stores
`error.message`). -/
def apiErrMsg : ApiError → String
  | .conflict => "Conflict"
  | .http status => "HTTP " ++ toString status
  | .network => "Failed to start timer"

/-- `startTimer` of the hook as a state transition over the API call's
outcome: on success the state switches to running on the new entry; on
failure only `loading`/`error` change and the error is re-thrown (the
second component is the propagated outcome). -/
def startTimerStep (prev : TimerState)
    (result : Except ApiError TimerEntry) :
    TimerState × Except ApiError TimerEntry :=
  match result with
  | .ok e =>
    ({ prev with
        isRunning := true
        currentEntry := some e
        elapsedTime := 0
        loading := false
        error := none }, .ok e)
  | .error err =>
    ({ prev with
        loading := false
        error := some (apiErrMsg err) }, .error err)

/-- Claim C7: the displayed elapsed time is always recomputed from the
authoritative `start_time` — each tick's result is independent of the
previous state, and on visibility resume the hook recomputes
`now − start_time` in whole seconds no matter how long the tick was
suspended. -/
theorem claim_elapsed_recomputed :
    (∀ (st₁ st₂ : TimerState) (s : String) (p : Option Int) (now : Int),
      (tickUpdate s p now st₁).elapsedTime =
        (tickUpdate s p now st₂).elapsedTime) ∧
    (∀ (st : TimerState) (e : TimerEntry) (p : Option Int) (now : Int),
      st.isRunning = true → st.currentEntry = some e →
      (handleVisibilityChange false p now st).elapsedTime =
        calculateElapsedTime e.start_time p now) ∧
    (∀ (st : TimerState) (e : TimerEntry) (startMs now : Int),
      st.isRunning = true → st.currentEntry = some e →
      e.start_time ≠ "" → startMs ≤ now →
      (handleVisibilityChange false (some startMs) now st).elapsedTime =
        (now - startMs) / 1000) := by
  refine ⟨?_, ?_, ?_⟩
  · intro st₁ st₂ s p now
    rfl
  · intro st e p now hrun hcur
    simp [handleVisibilityChange, hrun, hcur, tickUpdate]
  · intro st e startMs now hrun hcur hne hle
    simp [handleVisibilityChange, hrun, hcur, tickUpdate,
      calculateElapsedTime, hne]
    omega

/-- A concrete running entry for the C7 witness. -/
def demoTimerEntry : TimerEntry :=
  { id := 1
    start_time := "1970-01-01T00:00:00Z"
    end_time := none }

/-- A concrete running timer state for the C7 witness. -/
def runningDemoState : TimerState :=
  { isRunning := true
    currentEntry := some demoTimerEntry
    elapsedTime := 999999
    loading := false
    error := none }

/-- Witness for claim C7: resuming after any suspension recomputes
5 seconds elapsed from the authoritative start, not from the stale
counter (999999). -/
theorem claim_elapsed_recomputed_witness :
    (handleVisibilityChange false (some 0) 5000 runningDemoState).elapsedTime =
      (5000 - 0) / 1000 :=
  claim_elapsed_recomputed.2.2 runningDemoState demoTimerEntry
    0 5000 rfl rfl (by decide) (by decide)

/-- Claim C8: a failed start (conflict included) re-throws the failure
to the caller and leaves the existing timer untouched — the running
flag, the current entry and the elapsed counter all keep their previous
values. -/
theorem claim_start_failure_surfaced :
    ∀ (prev : TimerState) (err : ApiError),
      (startTimerStep prev (.error err)).2 = .error err ∧
      (startTimerStep prev (.error err)).1.currentEntry =
        prev.currentEntry ∧
      (startTimerStep prev (.error err)).1.isRunning = prev.isRunning ∧
      (startTimerStep prev (.error err)).1.elapsedTime =
        prev.elapsedTime := by
  intro prev err
  simp [startTimerStep]

/-- Claim C10: `calculateElapsedTime` is total and never negative, and
returns 0 for an empty `start_time`, for an unparsable timestamp, and
for a start in the future. -/
theorem claim_elapsed_total_nonneg :
    (∀ (s : String) (p : Option Int) (now : Int),
      0 ≤ calculateElapsedTime s p now) ∧
    (∀ (p : Option Int) (now : Int), calculateElapsedTime "" p now = 0) ∧
    (∀ (s : String) (now : Int), calculateElapsedTime s none now = 0) ∧
    (∀ (s : String) (startMs now : Int), now ≤ startMs →
      calculateElapsedTime s (some startMs) now = 0) := by
  refine ⟨?_, ?_, ?_, ?_⟩
  · intro s p now
    unfold calculateElapsedTime
    split
    · exact le_refl 0
    · cases p
      · exact le_refl 0
      · exact le_max_left 0 _
  · intro p now
    simp [calculateElapsedTime]
  · intro s now
    simp [calculateElapsedTime]
  · intro s startMs now h
    unfold calculateElapsedTime
    split
    · rfl
    · have hq : (now - startMs) / 1000 ≤ 0 := by omega
      simpa using max_eq_left hq

/-- Witness for claim C10: a start 10 minutes in the future yields 0. -/
theorem claim_elapsed_total_nonneg_witness :
    calculateElapsedTime "2999-01-01T00:00:00Z" (some 600000) 0 = 0 :=
  claim_elapsed_total_nonneg.2.2.2 "2999-01-01T00:00:00Z" 600000 0
    (by decide)

/-! ### The entries hook (`use-time-entries.ts`) -/

/-- The list state held by the entries hook. -/
structure EntriesState where
  entries : List ApiEntry
  totalCount : Nat
  totalDuration : Int
  page : Nat
  perPage : Nat
  loading : Bool
  error : Option String
  deriving Repr, DecidableEq

/-- Install a fetched list response into the hook state (the success
path of `loadTimeEntries`): the entry list and both totals are
replaced wholesale by the server's values. -/
def applyLoad (st : EntriesState) (resp : ListResponse) : EntriesState :=
  { st with
      entries := resp.entries
      totalCount := resp.total_count
      totalDuration := resp.total_duration
      page := resp.page
      perPage := resp.per_page
      loading := false
      error := none }

/-- `loadTimeEntries` over the fetch outcome: success replaces the
state from the response; failure records the message and keeps the
current entries. -/
def loadEntries (st : EntriesState)
    (fetch : Except ApiError ListResponse) : EntriesState :=
  match fetch with
  | .ok resp => applyLoad st resp
  | .error e =>
    { st with
        loading := false
        error := some (apiErrMsg e) }

/-- `updateEntry` of the hook: on API success the updated entry
replaces its occurrence in the local list (the stats refresh is not
modelled); on failure the hook refetches the whole list
(`loadTimeEntries`) and re-throws. -/
def updateEntryStep (st : EntriesState) (id : Nat)
    (apiResult : Except ApiError ApiEntry)
    (refetch : Except ApiError ListResponse) :
    EntriesState × Except ApiError ApiEntry :=
  match apiResult with
  | .ok updated =>
    ({ st with
        entries := st.entries.map (fun e => if e.id = id then updated else e) },
      .ok updated)
  | .error err => (loadEntries st refetch, .error err)

/-- `deleteEntry` of the hook: the entry is removed optimistically
(count clamped at zero) before the API call; afterwards the list is
refetched on success, and on failure the refetch reverts the
optimistic removal; the error is re-thrown. -/
def deleteEntryStep (st : EntriesState) (id : Nat)
    (apiResult : Except ApiError Unit)
    (refetch : Except ApiError ListResponse) :
    EntriesState × Except ApiError Unit :=
  let optimistic : EntriesState :=
    { st with
        entries := st.entries.filter (fun e => !(e.id == id))
        totalCount := st.totalCount - 1 }
  match apiResult with
  | .ok _ => (loadEntries optimistic refetch, .ok ())
  | .error err => (loadEntries optimistic refetch, .error err)

/-- Claim C9: when an update or delete command fails after its
optimistic application, the hook reverts by refetching the full list
from the server — the resulting entries and totals are exactly the
fetched authoritative response, independent of the prior optimistic
state and of the patched entry — and the failure is re-thrown, never
undone by a local inverse patch. -/
theorem claim_revert_by_refetch :
    ∀ (st₁ st₂ : EntriesState) (id₁ id₂ : Nat) (err : ApiError)
      (resp : ListResponse),
      (updateEntryStep st₁ id₁ (.error err) (.ok resp)).1.entries =
        resp.entries ∧
      (updateEntryStep st₁ id₁ (.error err) (.ok resp)).1.totalCount =
        resp.total_count ∧
      (updateEntryStep st₁ id₁ (.error err) (.ok resp)).1.totalDuration =
        resp.total_duration ∧
      (updateEntryStep st₁ id₁ (.error err) (.ok resp)).2 = .error err ∧
      (updateEntryStep st₁ id₁ (.error err) (.ok resp)).1.entries =
        (updateEntryStep st₂ id₂ (.error err) (.ok resp)).1.entries ∧
      (deleteEntryStep st₁ id₁ (.error err) (.ok resp)).1.entries =
        resp.entries ∧
      (deleteEntryStep st₁ id₁ (.error err) (.ok resp)).1.totalCount =
        resp.total_count ∧
      (deleteEntryStep st₁ id₁ (.error err) (.ok resp)).2 = .error err := by
  intro st₁ st₂ id₁ id₂ err resp
  simp [updateEntryStep, deleteEntryStep, loadEntries, applyLoad]

end Chronos
